import Mathlib

/-!
Shallow embedding of the sailing apparent-wind calculator's geometry kernel
(composables/useWindCalculations.ts) and its Pinia ring-state store
(stores/sailing.ts), together with proofs about the behaviour the
specification describes.  JavaScript numbers are modelled by real numbers;
`Math.atan2 y x` is modelled by `Complex.arg ⟨x, y⟩` (range `(-π, π]`,
`arg 0 = 0`, matching the JS convention), and the JS `%` operator (truncated
remainder) is modelled by `jsMod`.
-/

noncomputable section

open Classical

/-- Truncation toward zero, the rounding used by the JavaScript `%` operator. -/
def truncJS (x : ℝ) : ℤ :=
  if 0 ≤ x then ⌊x⌋ else ⌈x⌉

/-- The JavaScript remainder `x % y`: `x - y * trunc (x / y)`. -/
def jsMod (x y : ℝ) : ℝ :=
  x - y * (truncJS (x / y) : ℝ)

/-- Source: `degToRad` — convert degrees to radians. -/
def degToRad (degrees : ℝ) : ℝ :=
  degrees * Real.pi / 180

/-- Source: `radToDeg` — convert radians to degrees. -/
def radToDeg (radians : ℝ) : ℝ :=
  radians * 180 / Real.pi

/-- Source: `normalizeAngle` — `angle % (2π)` with a `+ 2π` fixup when the
remainder is negative. -/
def normalizeAngle (angle : ℝ) : ℝ :=
  let normalized := jsMod angle (2 * Real.pi)
  if normalized < 0 then normalized + 2 * Real.pi else normalized

@[ext]
structure Vector2D where
  x : ℝ
  y : ℝ

@[ext]
structure PolarCoords where
  angle : ℝ
  magnitude : ℝ

@[ext]
structure WindData where
  angle : ℝ
  speed : ℝ

@[ext]
structure BoatData where
  heading : ℝ
  speed : ℝ

/-- Source: `polarToCartesian`. -/
def polarToCartesian (polar : PolarCoords) : Vector2D :=
  ⟨polar.magnitude * Real.cos polar.angle, polar.magnitude * Real.sin polar.angle⟩

/-- Model of JavaScript `Math.atan2 y x`: the argument of the complex number
`x + y·i`, in `(-π, π]`, with `atan2 0 0 = 0`. -/
def atan2 (y x : ℝ) : ℝ :=
  Complex.arg ⟨x, y⟩

/-- Source: `cartesianToPolar` — `atan2(y, x)` and `√(x² + y²)`. -/
def cartesianToPolar (vector : Vector2D) : PolarCoords :=
  ⟨atan2 vector.y vector.x, Real.sqrt (vector.x * vector.x + vector.y * vector.y)⟩

/-- Source: `addVectors`. -/
def addVectors (a b : Vector2D) : Vector2D :=
  ⟨a.x + b.x, a.y + b.y⟩

/-- Source: `subtractVectors`. -/
def subtractVectors (a b : Vector2D) : Vector2D :=
  ⟨a.x - b.x, a.y - b.y⟩

/-- Source: `scaleVector`. -/
def scaleVector (vector : Vector2D) (scale : ℝ) : Vector2D :=
  ⟨vector.x * scale, vector.y * scale⟩

/-- Source: `calculateApparentWind` — apparent wind is the polar form of the
cartesian difference of true wind and boat velocity, with angle normalized and
magnitude floored at 0. -/
def calculateApparentWind (trueWind : WindData) (boat : BoatData) : WindData :=
  let trueWindVector := polarToCartesian ⟨trueWind.angle, trueWind.speed⟩
  let boatVector := polarToCartesian ⟨boat.heading, boat.speed⟩
  let apparentWindVector := subtractVectors trueWindVector boatVector
  let apparentWindPolar := cartesianToPolar apparentWindVector
  ⟨normalizeAngle apparentWindPolar.angle, max 0 apparentWindPolar.magnitude⟩

/-- Source: `angleCollision` — naive absolute difference of the normalized
angles, folded across the wrap boundary with `min diff (2π - diff)`. -/
def angleCollision (angle1 angle2 minSeparation : ℝ) : Bool :=
  let diff := |normalizeAngle angle1 - normalizeAngle angle2|
  let minDiff := min diff (2 * Real.pi - diff)
  decide (minDiff < minSeparation)

/-- Source: `constrainAngle` — iterate over the existing angles; on collision
snap to whichever of `existing ± minSeparation` (normalized) has the smaller
absolute difference from the current normalized candidate. -/
def constrainAngle (proposedAngle : ℝ) (existingAngles : List ℝ)
    (minSeparation : ℝ) : ℝ :=
  existingAngles.foldl
    (fun constrained existingAngle =>
      if angleCollision constrained existingAngle minSeparation then
        let normalizedExisting := normalizeAngle existingAngle
        let option1 := normalizeAngle (normalizedExisting + minSeparation)
        let option2 := normalizeAngle (normalizedExisting - minSeparation)
        let diff1 := |normalizeAngle constrained - option1|
        let diff2 := |normalizeAngle constrained - option2|
        if diff1 < diff2 then option1 else option2
      else constrained)
    (normalizeAngle proposedAngle)

/-- Source: `distance`. -/
def distance (a b : Vector2D) : ℝ :=
  Real.sqrt ((a.x - b.x) * (a.x - b.x) + (a.y - b.y) * (a.y - b.y))

/-- Source: `clamp`. -/
def clamp (value lo hi : ℝ) : ℝ :=
  min (max value lo) hi

lemma two_pi_pos : (0 : ℝ) < 2 * Real.pi := by positivity

/-- The source's `normalizeAngle` computes the mathematical floor-mod:
`2π · fract (a / 2π)`. -/
lemma normalizeAngle_eq_fract (a : ℝ) :
    normalizeAngle a = 2 * Real.pi * Int.fract (a / (2 * Real.pi)) := by
  have hT : (0 : ℝ) < 2 * Real.pi := two_pi_pos
  have hTne : (2 : ℝ) * Real.pi ≠ 0 := ne_of_gt hT
  set z : ℝ := a / (2 * Real.pi) with hz
  have haz : 2 * Real.pi * z = a := by
    field_simp [hz]
  have key : a - 2 * Real.pi * ((⌊z⌋ : ℤ) : ℝ) = 2 * Real.pi * Int.fract z := by
    have hfr : Int.fract z = z - ((⌊z⌋ : ℤ) : ℝ) := (Int.self_sub_floor z).symm
    rw [hfr, mul_sub, haz]
  rcases le_or_lt 0 z with h0 | h0
  · have ht : truncJS z = ⌊z⌋ := by simp [truncJS, h0]
    have hnn : 0 ≤ a - 2 * Real.pi * ((⌊z⌋ : ℤ) : ℝ) := by
      rw [key]
      exact mul_nonneg hT.le (Int.fract_nonneg z)
    simp only [normalizeAngle, jsMod, ← hz, ht]
    rw [if_neg (not_lt.2 hnn)]
    exact key
  · have ht : truncJS z = ⌈z⌉ := by simp [truncJS, not_le.2 h0]
    by_cases hfr0 : Int.fract z = 0
    · have hzfloor : z = ((⌊z⌋ : ℤ) : ℝ) := by
        have hfr : Int.fract z = z - ((⌊z⌋ : ℤ) : ℝ) := (Int.self_sub_floor z).symm
        rw [hfr0] at hfr
        linarith
      have hceil : (⌈z⌉ : ℤ) = ⌊z⌋ := by
        rw [hzfloor]
        simp
      have hval : a - 2 * Real.pi * ((⌈z⌉ : ℤ) : ℝ) = 0 := by
        rw [hceil]
        rw [key, hfr0, mul_zero]
      simp only [normalizeAngle, jsMod, ← hz, ht]
      rw [hval, if_neg (lt_irrefl 0), hfr0, mul_zero]
    · have hfrpos : 0 < Int.fract z := lt_of_le_of_ne (Int.fract_nonneg z) (Ne.symm hfr0)
      have hfloorlt : ((⌊z⌋ : ℤ) : ℝ) < z := by
        have hfr : Int.fract z = z - ((⌊z⌋ : ℤ) : ℝ) := (Int.self_sub_floor z).symm
        rw [hfr] at hfrpos
        linarith
      have hceil : (⌈z⌉ : ℤ) = ⌊z⌋ + 1 := by
        have h1 : (⌊z⌋ : ℤ) < ⌈z⌉ := by
          have : ((⌊z⌋ : ℤ) : ℝ) < ((⌈z⌉ : ℤ) : ℝ) := lt_of_lt_of_le hfloorlt (Int.le_ceil z)
          exact_mod_cast this
        have h2 : (⌈z⌉ : ℤ) ≤ ⌊z⌋ + 1 := Int.ceil_le_floor_add_one z
        omega
      have hval : a - 2 * Real.pi * ((⌈z⌉ : ℤ) : ℝ) =
          2 * Real.pi * Int.fract z - 2 * Real.pi := by
        rw [hceil]
        push_cast
        rw [mul_add, mul_one, ← sub_sub, key]
      have hneg : a - 2 * Real.pi * ((⌈z⌉ : ℤ) : ℝ) < 0 := by
        rw [hval]
        have := Int.fract_lt_one z
        nlinarith
      simp only [normalizeAngle, jsMod, ← hz, ht]
      rw [if_pos hneg, hval]
      ring

lemma normalizeAngle_nonneg (a : ℝ) : 0 ≤ normalizeAngle a := by
  rw [normalizeAngle_eq_fract]
  exact mul_nonneg two_pi_pos.le (Int.fract_nonneg _)

lemma normalizeAngle_lt_two_pi (a : ℝ) : normalizeAngle a < 2 * Real.pi := by
  rw [normalizeAngle_eq_fract]
  have h1 := Int.fract_lt_one (a / (2 * Real.pi))
  have h2 := two_pi_pos
  nlinarith

lemma normalizeAngle_add_int (a : ℝ) (k : ℤ) :
    normalizeAngle (a + 2 * Real.pi * k) = normalizeAngle a := by
  rw [normalizeAngle_eq_fract, normalizeAngle_eq_fract]
  congr 1
  have hTne : (2 : ℝ) * Real.pi ≠ 0 := ne_of_gt two_pi_pos
  have : (a + 2 * Real.pi * k) / (2 * Real.pi) = a / (2 * Real.pi) + (k : ℝ) := by
    field_simp
    ring
  rw [this, Int.fract_add_int]

lemma normalizeAngle_eq_self {a : ℝ} (h0 : 0 ≤ a) (h2 : a < 2 * Real.pi) :
    normalizeAngle a = a := by
  rw [normalizeAngle_eq_fract]
  have hT := two_pi_pos
  have hfr : Int.fract (a / (2 * Real.pi)) = a / (2 * Real.pi) := by
    rw [Int.fract_eq_self]
    constructor
    · exact div_nonneg h0 hT.le
    · rw [div_lt_one hT]
      exact h2
  rw [hfr]
  field_simp

lemma normalizeAngle_neg_add {a : ℝ} (h0 : -(2 * Real.pi) ≤ a) (h2 : a < 0) :
    normalizeAngle a = a + 2 * Real.pi := by
  have := normalizeAngle_add_int a 1
  push_cast at this
  rw [mul_one] at this
  rw [← this]
  exact normalizeAngle_eq_self (by linarith) (by linarith)

/-- Source: the `Ring` interface (types/interfaces.ts); named `RingData` here
because `Ring` is taken by Mathlib. -/
@[ext]
structure RingData where
  angle : ℝ
  radius : ℝ
  spokes : ℕ
  minRadius : ℝ
  maxRadius : ℝ

/-- Source: the `canvas` record of the store state. -/
@[ext]
structure CanvasDims where
  width : ℝ
  height : ℝ
  centerX : ℝ
  centerY : ℝ

/-- The two ring identifiers of the store (`'wind' | 'boat'`). -/
inductive RingType where
  | wind
  | boat

/-- Source: `SailingState` (stores/sailing.ts). -/
structure SailingState where
  windRing : RingData
  boatRing : RingData
  apparentWind : WindData
  canvas : CanvasDims
  selectedRing : Option RingType
  isDragging : Bool
  dragStart : Option Vector2D

/-- Source: the store's initial `state()`. -/
def initialState : SailingState :=
  { windRing := ⟨degToRad 0, 180, 3, 80, 250⟩
    boatRing := ⟨degToRad 45, 120, 4, 60, 180⟩
    apparentWind := ⟨degToRad 0, 0⟩
    canvas := ⟨800, 600, 400, 300⟩
    selectedRing := none
    isDragging := false
    dragStart := none }

/-- The ring a `RingType` selects inside a state. -/
def ringOf (s : SailingState) : RingType → RingData
  | RingType.wind => s.windRing
  | RingType.boat => s.boatRing

/-- Source: the `windSpeed` getter — unguarded linear interpolation of the
wind-ring radius into `[0, 30]` knots. -/
def windSpeed (s : SailingState) : ℝ :=
  (s.windRing.radius - s.windRing.minRadius) /
    (s.windRing.maxRadius - s.windRing.minRadius) * 30

/-- Source: the `boatSpeed` getter — unguarded linear interpolation of the
boat-ring radius into `[0, 20]` knots. -/
def boatSpeed (s : SailingState) : ℝ :=
  (s.boatRing.radius - s.boatRing.minRadius) /
    (s.boatRing.maxRadius - s.boatRing.minRadius) * 20

/-- Source: the `updateCanvasDimensions(width, height)` action. -/
def updateCanvasDimensions (s : SailingState) (width height : ℝ) : SailingState :=
  let maxSize := min width height * 0.4
  { s with
    canvas := ⟨width, height, width / 2, height / 2⟩
    windRing := { s.windRing with
      maxRadius := maxSize
      minRadius := maxSize * 0.4
      radius := min s.windRing.radius maxSize }
    boatRing := { s.boatRing with
      maxRadius := maxSize * 0.8
      minRadius := maxSize * 0.3
      radius := min s.boatRing.radius (maxSize * 0.8) } }

/-- Source: the `startRingDrag` action. -/
def startRingDrag (s : SailingState) (ringType : RingType)
    (startPoint : Vector2D) : SailingState :=
  { s with selectedRing := some ringType, isDragging := true,
           dragStart := some startPoint }

/-- Source: the store action `calculateApparentWind()` — writes
`calculateApparentWind` of the current ring angles and derived speeds into
`apparentWind`. -/
def recalcApparentWind (s : SailingState) : SailingState :=
  { s with apparentWind :=
      calculateApparentWind ⟨s.windRing.angle, windSpeed s⟩ ⟨s.boatRing.angle, boatSpeed s⟩ }

/-- Source: the `updateRingDrag(currentPoint)` action (absolute-positioning
version): recompute radius and angle of the selected ring from the pointer's
offset from the canvas center, clamp the radius, then recompute the apparent
wind. -/
def updateRingDrag (s : SailingState) (currentPoint : Vector2D) : SailingState :=
  match s.selectedRing, s.isDragging with
  | some ringType, true =>
    let ring := ringOf s ringType
    let dx := currentPoint.x - s.canvas.centerX
    let dy := currentPoint.y - s.canvas.centerY
    let newRadius := Real.sqrt (dx * dx + dy * dy)
    let newAngle := atan2 dy dx
    let clampedRadius := max ring.minRadius (min ring.maxRadius newRadius)
    let s1 :=
      match ringType with
      | RingType.wind =>
        { s with windRing := { s.windRing with
            radius := clampedRadius, angle := normalizeAngle newAngle } }
      | RingType.boat =>
        { s with boatRing := { s.boatRing with
            radius := clampedRadius, angle := normalizeAngle newAngle } }
    recalcApparentWind { s1 with dragStart := some currentPoint }
  | _, _ => s

/-- Source: the `endRingDrag` action. -/
def endRingDrag (s : SailingState) : SailingState :=
  { s with selectedRing := none, isDragging := false, dragStart := none }

/-- Keyboard directions accepted by `moveSelectedRing`. -/
inductive MoveDirection where
  | left
  | right
  | up
  | down

/-- Source: the `moveSelectedRing(direction, step = 0.05)` action. -/
def moveSelectedRing (s : SailingState) (direction : MoveDirection)
    (step : ℝ) : SailingState :=
  match s.selectedRing with
  | none => s
  | some ringType =>
    let update : RingData → RingData := fun ring =>
      match direction with
      | MoveDirection.left =>
        { ring with angle := normalizeAngle (ring.angle - degToRad 5) }
      | MoveDirection.right =>
        { ring with angle := normalizeAngle (ring.angle + degToRad 5) }
      | MoveDirection.up =>
        { ring with radius := min ring.maxRadius (ring.radius + ring.maxRadius * step) }
      | MoveDirection.down =>
        { ring with radius := max ring.minRadius (ring.radius - ring.maxRadius * step) }
    let s1 :=
      match ringType with
      | RingType.wind => { s with windRing := update s.windRing }
      | RingType.boat => { s with boatRing := update s.boatRing }
    recalcApparentWind s1

/-- Source: the `selectRing` action. -/
def selectRing (s : SailingState) (ringType : Option RingType) : SailingState :=
  { s with selectedRing := ringType }

/-- Source: `handleMouseUp` in composables/useSailingCanvas.ts — when a drag is
in progress on a ring, end the drag session in the store and then re-select
that ring so keyboard nudging keeps targeting it. -/
def handleMouseUp (s : SailingState) (localIsDragging : Bool)
    (currentRing : Option RingType) : SailingState :=
  match localIsDragging, currentRing with
  | true, some r => selectRing (endRingDrag s) (some r)
  | _, _ => s

/-- The derived apparent wind stored in the state agrees with
`calculateApparentWind` applied to the current rings. -/
def apparentWindConsistent (s : SailingState) : Prop :=
  s.apparentWind =
    calculateApparentWind ⟨s.windRing.angle, windSpeed s⟩
      ⟨s.boatRing.angle, boatSpeed s⟩

lemma recalc_consistent (s : SailingState) :
    apparentWindConsistent (recalcApparentWind s) := by
  unfold apparentWindConsistent recalcApparentWind windSpeed boatSpeed
  rfl

/-- A state in which the wind ring is selected and a drag is active (used to
instantiate theorems about the drag actions on a concrete input). -/
def dragTestState : SailingState :=
  { initialState with selectedRing := some RingType.wind, isDragging := true }

/-- C1: `calculateApparentWind` returns the polar form of the cartesian
difference of the two inputs — both converted with `polarToCartesian`,
subtracted componentwise, converted back with `cartesianToPolar` — with the
angle normalized into `[0, 2π)` and the speed equal to
`max 0 magnitude`, hence never negative. -/
theorem c1_apparent_wind_pipeline (trueWind : WindData) (boat : BoatData) :
    calculateApparentWind trueWind boat =
      ⟨normalizeAngle (cartesianToPolar (subtractVectors
          (polarToCartesian ⟨trueWind.angle, trueWind.speed⟩)
          (polarToCartesian ⟨boat.heading, boat.speed⟩))).angle,
        max 0 (cartesianToPolar (subtractVectors
          (polarToCartesian ⟨trueWind.angle, trueWind.speed⟩)
          (polarToCartesian ⟨boat.heading, boat.speed⟩))).magnitude⟩ ∧
    0 ≤ (calculateApparentWind trueWind boat).speed ∧
    0 ≤ (calculateApparentWind trueWind boat).angle ∧
    (calculateApparentWind trueWind boat).angle < 2 * Real.pi := by
  refine ⟨rfl, ?_, ?_, ?_⟩
  · show 0 ≤ max 0 _
    exact le_max_left _ _
  · exact normalizeAngle_nonneg _
  · exact normalizeAngle_lt_two_pi _

/-- C2 (amended): `updateCanvasDimensions` clamps each ring's radius only from
above — after it returns, `radius ≤ maxRadius` holds for both rings; there is
no lower-bound re-clamp. -/
theorem c2_upper_clamp_only (s : SailingState) (width height : ℝ) :
    (updateCanvasDimensions s width height).windRing.radius ≤
      (updateCanvasDimensions s width height).windRing.maxRadius ∧
    (updateCanvasDimensions s width height).boatRing.radius ≤
      (updateCanvasDimensions s width height).boatRing.maxRadius := by
  constructor
  · show min s.windRing.radius _ ≤ _
    exact min_le_right _ _
  · show min s.boatRing.radius _ ≤ _
    exact min_le_right _ _

/-- C2 counterexample: from the store's default state,
`updateCanvasDimensions 1100 1100` leaves the boat ring's radius (120) strictly
below its newly computed `minRadius` (132) — the claimed two-sided re-clamp
does not happen. -/
theorem c2_counterexample :
    ¬ ((updateCanvasDimensions initialState 1100 1100).boatRing.minRadius ≤
        (updateCanvasDimensions initialState 1100 1100).boatRing.radius) := by
  norm_num [updateCanvasDimensions, initialState, min_def]

/-- C3 (amended): the drag-update and keyboard-move actions recompute the
apparent wind eagerly — after either returns, the stored `apparentWind` equals
`calculateApparentWind` of the current ring angles and derived speeds.
(`updateCanvasDimensions` does not; see the counterexample.) -/
theorem c3_eager_recompute (s : SailingState) (p : Vector2D) (d : MoveDirection)
    (step : ℝ) (r : RingType) (hsel : s.selectedRing = some r) :
    (s.isDragging = true → apparentWindConsistent (updateRingDrag s p)) ∧
    apparentWindConsistent (moveSelectedRing s d step) := by
  constructor
  · intro hdrag
    unfold updateRingDrag
    rw [hsel, hdrag]
    exact recalc_consistent _
  · unfold moveSelectedRing
    rw [hsel]
    exact recalc_consistent _

theorem c3_witness :
    apparentWindConsistent (updateRingDrag dragTestState ⟨500, 300⟩) ∧
    apparentWindConsistent
      (moveSelectedRing dragTestState MoveDirection.left 0.05) :=
  ⟨(c3_eager_recompute dragTestState ⟨500, 300⟩ MoveDirection.left 0.05
      RingType.wind rfl).1 rfl,
   (c3_eager_recompute dragTestState ⟨500, 300⟩ MoveDirection.left 0.05
      RingType.wind rfl).2⟩

/-- C3 counterexample: `updateCanvasDimensions` mutates the ring bounds (and
hence the derived speeds) without recomputing the apparent wind, so the stored
`apparentWind` is stale afterwards: from the default state, after
`updateCanvasDimensions 800 600` the stored apparent-wind speed is still 0
while the recomputed apparent wind has positive speed. -/
theorem c3_counterexample :
    ¬ apparentWindConsistent (updateCanvasDimensions initialState 800 600) := by
  intro h
  unfold apparentWindConsistent at h
  have hspeed := congrArg WindData.speed h
  have hlhs : (updateCanvasDimensions initialState 800 600).apparentWind.speed = 0 := rfl
  rw [hlhs] at hspeed
  set s1 := updateCanvasDimensions initialState 800 600 with hs1
  have hwind : s1.windRing.angle = 0 := by
    show degToRad 0 = 0
    simp [degToRad]
  have hboat : s1.boatRing.angle = Real.pi / 4 := by
    show degToRad 45 = Real.pi / 4
    unfold degToRad
    ring
  have hbs : boatSpeed s1 = 8 := by
    rw [hs1]
    norm_num [boatSpeed, updateCanvasDimensions, initialState, min_def]
  rw [show (calculateApparentWind ⟨s1.windRing.angle, windSpeed s1⟩
        ⟨s1.boatRing.angle, boatSpeed s1⟩).speed =
      max 0 (Real.sqrt
        ((windSpeed s1 * Real.cos s1.windRing.angle -
            boatSpeed s1 * Real.cos s1.boatRing.angle) *
          (windSpeed s1 * Real.cos s1.windRing.angle -
            boatSpeed s1 * Real.cos s1.boatRing.angle) +
         (windSpeed s1 * Real.sin s1.windRing.angle -
            boatSpeed s1 * Real.sin s1.boatRing.angle) *
          (windSpeed s1 * Real.sin s1.windRing.angle -
            boatSpeed s1 * Real.sin s1.boatRing.angle))) from rfl] at hspeed
  rw [hwind, hboat, hbs] at hspeed
  rw [Real.sin_pi_div_four, Real.sin_zero] at hspeed
  have hy : windSpeed s1 * 0 - 8 * (Real.sqrt 2 / 2) = -(4 * Real.sqrt 2) := by
    ring
  rw [hy] at hspeed
  have hyy : -(4 * Real.sqrt 2) * -(4 * Real.sqrt 2) = 32 := by
    have h2 : Real.sqrt 2 * Real.sqrt 2 = 2 :=
      Real.mul_self_sqrt (by norm_num)
    nlinarith [h2]
  rw [hyy] at hspeed
  set X := windSpeed s1 * Real.cos 0 - 8 * Real.cos (Real.pi / 4) with hX
  have hXX : 0 ≤ X * X := mul_self_nonneg X
  have hpos : 0 < Real.sqrt (X * X + 32) := Real.sqrt_pos.2 (by linarith)
  have hle := le_max_right 0 (Real.sqrt (X * X + 32))
  linarith

/-- C6 (amended): the speed getters are unguarded linear interpolations; they
are nonnegative whenever the ring satisfies `minRadius ≤ radius` and
`minRadius < maxRadius`, but no degenerate-bounds guard exists and negative
values are reachable (see the counterexample). -/
theorem c6_speed_nonneg_of_valid (s : SailingState) :
    (s.windRing.minRadius ≤ s.windRing.radius →
      s.windRing.minRadius < s.windRing.maxRadius → 0 ≤ windSpeed s) ∧
    (s.boatRing.minRadius ≤ s.boatRing.radius →
      s.boatRing.minRadius < s.boatRing.maxRadius → 0 ≤ boatSpeed s) := by
  constructor
  · intro h1 h2
    exact mul_nonneg (div_nonneg (by linarith) (by linarith)) (by norm_num)
  · intro h1 h2
    exact mul_nonneg (div_nonneg (by linarith) (by linarith)) (by norm_num)

theorem c6_witness :
    (initialState.windRing.minRadius ≤ initialState.windRing.radius ∧
      initialState.windRing.minRadius < initialState.windRing.maxRadius ∧
      0 ≤ windSpeed initialState) ∧
    (initialState.boatRing.minRadius ≤ initialState.boatRing.radius ∧
      initialState.boatRing.minRadius < initialState.boatRing.maxRadius ∧
      0 ≤ boatSpeed initialState) := by
  have hw1 : initialState.windRing.minRadius ≤ initialState.windRing.radius := by
    norm_num [initialState]
  have hw2 : initialState.windRing.minRadius < initialState.windRing.maxRadius := by
    norm_num [initialState]
  have hb1 : initialState.boatRing.minRadius ≤ initialState.boatRing.radius := by
    norm_num [initialState]
  have hb2 : initialState.boatRing.minRadius < initialState.boatRing.maxRadius := by
    norm_num [initialState]
  exact ⟨⟨hw1, hw2, (c6_speed_nonneg_of_valid initialState).1 hw1 hw2⟩,
         ⟨hb1, hb2, (c6_speed_nonneg_of_valid initialState).2 hb1 hb2⟩⟩

/-- C6 counterexample: after `updateCanvasDimensions 1100 1100` from the
default state, the boat ring's radius (120) sits below its new `minRadius`
(132) and the unguarded interpolation returns the negative speed `-12/11`. -/
theorem c6_counterexample :
    boatSpeed (updateCanvasDimensions initialState 1100 1100) < 0 := by
  norm_num [boatSpeed, updateCanvasDimensions, initialState, min_def]

/-- C10: `handleMouseUp` during an active drag on a ring ends the drag session
(`isDragging` false, drag anchor cleared) while that ring remains selected for
keyboard follow-up. -/
theorem c10_mouse_up_retains_selection (s : SailingState) (r : RingType) :
    (handleMouseUp s true (some r)).isDragging = false ∧
    (handleMouseUp s true (some r)).dragStart = none ∧
    (handleMouseUp s true (some r)).selectedRing = some r :=
  ⟨rfl, rfl, rfl⟩

/-- C4: `normalizeAngle` maps every real angle into `[0, 2π)`, is invariant
under adding integer multiples of `2π`, and wraps negative inputs forward,
e.g. `normalizeAngle (-π/2) = 3π/2`. -/
theorem c4_normalizeAngle_spec (a : ℝ) :
    (0 ≤ normalizeAngle a ∧ normalizeAngle a < 2 * Real.pi) ∧
    (∀ k : ℤ, normalizeAngle (a + 2 * Real.pi * k) = normalizeAngle a) ∧
    normalizeAngle (-(Real.pi / 2)) = 3 * Real.pi / 2 := by
  refine ⟨⟨normalizeAngle_nonneg a, normalizeAngle_lt_two_pi a⟩,
    fun k => normalizeAngle_add_int a k, ?_⟩
  have h := Real.pi_pos
  rw [normalizeAngle_neg_add (by linarith) (by linarith)]
  ring

/-- The quantity the source computes from the naive absolute difference of two
normalized angles agrees with the minimum of the forward and backward angular
distances between them. -/
lemma min_angular_dist_eq (a1 a2 : ℝ) :
    min |normalizeAngle a1 - normalizeAngle a2|
        (2 * Real.pi - |normalizeAngle a1 - normalizeAngle a2|) =
    min (normalizeAngle (normalizeAngle a2 - normalizeAngle a1))
        (normalizeAngle (normalizeAngle a1 - normalizeAngle a2)) := by
  have h1l : 0 ≤ normalizeAngle a1 := normalizeAngle_nonneg a1
  have h1u : normalizeAngle a1 < 2 * Real.pi := normalizeAngle_lt_two_pi a1
  have h2l : 0 ≤ normalizeAngle a2 := normalizeAngle_nonneg a2
  have h2u : normalizeAngle a2 < 2 * Real.pi := normalizeAngle_lt_two_pi a2
  set n1 := normalizeAngle a1
  set n2 := normalizeAngle a2
  rcases lt_trichotomy n1 n2 with h | h | h
  · have e1 : normalizeAngle (n2 - n1) = n2 - n1 :=
      normalizeAngle_eq_self (by linarith) (by linarith)
    have e2 : normalizeAngle (n1 - n2) = n1 - n2 + 2 * Real.pi :=
      normalizeAngle_neg_add (by linarith) (by linarith)
    have ea : |n1 - n2| = n2 - n1 := by
      rw [abs_of_neg (by linarith : n1 - n2 < 0)]
      ring
    rw [e1, e2, ea]
    have er : 2 * Real.pi - (n2 - n1) = n1 - n2 + 2 * Real.pi := by ring
    rw [er]
  · have e0 : normalizeAngle (n2 - n1) = 0 := by
      rw [h, sub_self]
      exact normalizeAngle_eq_self le_rfl two_pi_pos
    have e0' : normalizeAngle (n1 - n2) = 0 := by
      rw [h, sub_self]
      exact normalizeAngle_eq_self le_rfl two_pi_pos
    have ea : |n1 - n2| = 0 := by
      rw [h, sub_self, abs_zero]
    rw [e0, e0', ea, min_self, sub_zero]
    exact min_eq_left two_pi_pos.le
  · have e1 : normalizeAngle (n2 - n1) = n2 - n1 + 2 * Real.pi :=
      normalizeAngle_neg_add (by linarith) (by linarith)
    have e2 : normalizeAngle (n1 - n2) = n1 - n2 :=
      normalizeAngle_eq_self (by linarith) (by linarith)
    have ea : |n1 - n2| = n1 - n2 := abs_of_pos (by linarith)
    rw [e1, e2, ea]
    have er : 2 * Real.pi - (n1 - n2) = n2 - n1 + 2 * Real.pi := by ring
    rw [er, min_comm]

/-- C8: `angleCollision a1 a2 minSep` is true exactly when the minimum of the
forward and backward angular distances between the normalized angles is
strictly less than `minSep`; in particular 355° and 5° are 10° apart across
the wrap boundary, so `angleCollision 355° 5° 20°` is true. -/
theorem c8_angleCollision_spec :
    (∀ a1 a2 minSep : ℝ, angleCollision a1 a2 minSep = true ↔
      min (normalizeAngle (normalizeAngle a2 - normalizeAngle a1))
          (normalizeAngle (normalizeAngle a1 - normalizeAngle a2)) < minSep) ∧
    angleCollision (degToRad 355) (degToRad 5) (degToRad 20) = true := by
  have hmain : ∀ a1 a2 minSep : ℝ, angleCollision a1 a2 minSep = true ↔
      min (normalizeAngle (normalizeAngle a2 - normalizeAngle a1))
          (normalizeAngle (normalizeAngle a1 - normalizeAngle a2)) < minSep := by
    intro a1 a2 minSep
    unfold angleCollision
    rw [decide_eq_true_iff, min_angular_dist_eq]
  refine ⟨hmain, ?_⟩
  rw [hmain]
  have hpi := Real.pi_pos
  have e355 : normalizeAngle (degToRad 355) = degToRad 355 := by
    unfold degToRad
    exact normalizeAngle_eq_self (by positivity) (by nlinarith)
  have e5 : normalizeAngle (degToRad 5) = degToRad 5 := by
    unfold degToRad
    exact normalizeAngle_eq_self (by positivity) (by nlinarith)
  rw [e355, e5]
  have efwd : normalizeAngle (degToRad 5 - degToRad 355) =
      degToRad 5 - degToRad 355 + 2 * Real.pi := by
    apply normalizeAngle_neg_add
    · unfold degToRad
      nlinarith
    · unfold degToRad
      nlinarith
  have ebwd : normalizeAngle (degToRad 355 - degToRad 5) =
      degToRad 355 - degToRad 5 := by
    apply normalizeAngle_eq_self
    · unfold degToRad
      nlinarith
    · unfold degToRad
      nlinarith
  rw [efwd, ebwd]
  have hminle : degToRad 5 - degToRad 355 + 2 * Real.pi ≤
      degToRad 355 - degToRad 5 := by
    unfold degToRad
    nlinarith
  rw [min_eq_left hminle]
  unfold degToRad
  nlinarith

/-- C5: while a drag session is active, `updateRingDrag` repositions the
selected ring absolutely from the pointer's offset from the canvas center —
the new radius is the distance from center clamped into
`[minRadius, maxRadius]` and the new angle is the normalized `atan2` of the
offset — and then recomputes the apparent wind. -/
theorem c5_drag_absolute_positioning (s : SailingState) (p : Vector2D)
    (r : RingType) (hsel : s.selectedRing = some r)
    (hdrag : s.isDragging = true) :
    (ringOf (updateRingDrag s p) r).radius =
      max (ringOf s r).minRadius (min (ringOf s r).maxRadius
        (Real.sqrt ((p.x - s.canvas.centerX) * (p.x - s.canvas.centerX) +
          (p.y - s.canvas.centerY) * (p.y - s.canvas.centerY)))) ∧
    (ringOf (updateRingDrag s p) r).angle =
      normalizeAngle (atan2 (p.y - s.canvas.centerY) (p.x - s.canvas.centerX)) ∧
    apparentWindConsistent (updateRingDrag s p) := by
  unfold updateRingDrag
  rw [hsel, hdrag]
  cases r
  · exact ⟨rfl, rfl, recalc_consistent _⟩
  · exact ⟨rfl, rfl, recalc_consistent _⟩

theorem c5_witness :
    (ringOf (updateRingDrag dragTestState ⟨500, 300⟩) RingType.wind).radius =
      max (ringOf dragTestState RingType.wind).minRadius
        (min (ringOf dragTestState RingType.wind).maxRadius
          (Real.sqrt (((500 : ℝ) - dragTestState.canvas.centerX) *
              ((500 : ℝ) - dragTestState.canvas.centerX) +
            ((300 : ℝ) - dragTestState.canvas.centerY) *
              ((300 : ℝ) - dragTestState.canvas.centerY)))) ∧
    (ringOf (updateRingDrag dragTestState ⟨500, 300⟩) RingType.wind).angle =
      normalizeAngle (atan2 ((300 : ℝ) - dragTestState.canvas.centerY)
        ((500 : ℝ) - dragTestState.canvas.centerX)) ∧
    apparentWindConsistent (updateRingDrag dragTestState ⟨500, 300⟩) :=
  c5_drag_absolute_positioning dragTestState ⟨500, 300⟩ RingType.wind rfl rfl

/-- C9 (amended): with zero boat speed and a true wind of positive speed and
normalized angle, the apparent wind equals the true wind exactly in both
fields: the boat vector is the zero vector and the polar-cartesian-polar round
trip restores the input. (For zero true-wind speed the exact-angle round trip
can fail — see the counterexample.) -/
theorem c9_zero_boat_speed_exact (tw : WindData) (heading : ℝ)
    (hs : 0 < tw.speed) (h0 : 0 ≤ tw.angle) (h2 : tw.angle < 2 * Real.pi) :
    calculateApparentWind tw ⟨heading, 0⟩ = tw := by
  obtain ⟨θ, s⟩ := tw
  simp only at hs h0 h2
  have hvec : subtractVectors (polarToCartesian ⟨θ, s⟩)
      (polarToCartesian ⟨heading, 0⟩) = ⟨s * Real.cos θ, s * Real.sin θ⟩ := by
    unfold subtractVectors polarToCartesian
    ext <;> simp
  have hred : calculateApparentWind ⟨θ, s⟩ ⟨heading, 0⟩ =
      ⟨normalizeAngle (cartesianToPolar ⟨s * Real.cos θ, s * Real.sin θ⟩).angle,
        max 0 (cartesianToPolar ⟨s * Real.cos θ, s * Real.sin θ⟩).magnitude⟩ := by
    rw [← hvec]
    rfl
  rw [hred]
  have hmag : (cartesianToPolar ⟨s * Real.cos θ, s * Real.sin θ⟩).magnitude = s := by
    show Real.sqrt (s * Real.cos θ * (s * Real.cos θ) +
      s * Real.sin θ * (s * Real.sin θ)) = s
    have hid : s * Real.cos θ * (s * Real.cos θ) +
        s * Real.sin θ * (s * Real.sin θ) = s ^ 2 := by
      have hpyth := Real.sin_sq_add_cos_sq θ
      nlinarith [hpyth]
    rw [hid, Real.sqrt_sq hs.le]
  have hmk : (⟨s * Real.cos θ, s * Real.sin θ⟩ : ℂ) =
      (s : ℂ) * (Complex.cos θ + Complex.sin θ * Complex.I) := by
    rw [Complex.mk_eq_add_mul_I, ← Complex.ofReal_cos, ← Complex.ofReal_sin]
    push_cast
    ring
  have hangle : normalizeAngle
      (cartesianToPolar ⟨s * Real.cos θ, s * Real.sin θ⟩).angle = θ := by
    show normalizeAngle (Complex.arg ⟨s * Real.cos θ, s * Real.sin θ⟩) = θ
    rcases le_or_lt θ Real.pi with hle | hgt
    · have harg : Complex.arg (⟨s * Real.cos θ, s * Real.sin θ⟩ : ℂ) = θ := by
        rw [hmk, Complex.arg_real_mul _ hs,
          Complex.arg_cos_add_sin_mul_I ⟨by linarith [Real.pi_pos], hle⟩]
      rw [harg]
      exact normalizeAngle_eq_self h0 h2
    · have hcs : Complex.cos (θ : ℂ) + Complex.sin (θ : ℂ) * Complex.I =
          Complex.cos ((θ - 2 * Real.pi : ℝ) : ℂ) +
            Complex.sin ((θ - 2 * Real.pi : ℝ) : ℂ) * Complex.I := by
        rw [← Complex.ofReal_cos, ← Complex.ofReal_cos,
          ← Complex.ofReal_sin, ← Complex.ofReal_sin,
          Real.cos_sub_two_pi, Real.sin_sub_two_pi]
      have harg : Complex.arg (⟨s * Real.cos θ, s * Real.sin θ⟩ : ℂ) =
          θ - 2 * Real.pi := by
        rw [hmk, Complex.arg_real_mul _ hs, hcs,
          Complex.arg_cos_add_sin_mul_I ⟨by linarith, by linarith [Real.pi_pos]⟩]
      rw [harg]
      have hper := normalizeAngle_add_int (θ - 2 * Real.pi) 1
      push_cast at hper
      rw [mul_one] at hper
      have hsum : θ - 2 * Real.pi + 2 * Real.pi = θ := by ring
      rw [hsum] at hper
      rw [← hper]
      exact normalizeAngle_eq_self h0 h2
  rw [hangle, hmag, max_eq_right hs.le]

theorem c9_witness :
    (0 : ℝ) < 1 ∧ (0 : ℝ) ≤ 0 ∧ (0 : ℝ) < 2 * Real.pi ∧
    calculateApparentWind ⟨0, 1⟩ ⟨0, 0⟩ = (⟨0, 1⟩ : WindData) :=
  ⟨one_pos, le_rfl, two_pi_pos,
    c9_zero_boat_speed_exact ⟨0, 1⟩ 0 one_pos le_rfl two_pi_pos⟩

/-- C9 counterexample: the claim as stated also covers a true wind of speed 0,
where it fails: for true wind `{angle := π/2, speed := 0}` (π/2 is a
normalized angle) and a motionless boat, the code returns angle 0, not π/2 —
the true-wind vector is the zero vector and `atan2` of it is 0.  (The input
π/2 is chosen so that the JS program agrees with this real-number model:
`Math.cos (π/2)` and `Math.sin (π/2)` are both nonnegative in JS, so no
negatively-signed zero arises and `Math.atan2 (+0, +0) = 0` there too; at
inputs with a negative cosine, such as π, JS signed zeros make
`Math.atan2 (+0, -0) = π` and the round trip happens to hold.) -/
theorem c9_counterexample :
    (0 ≤ Real.pi / 2 ∧ Real.pi / 2 < 2 * Real.pi) ∧
    calculateApparentWind ⟨Real.pi / 2, 0⟩ ⟨0, 0⟩ ≠
      (⟨Real.pi / 2, 0⟩ : WindData) := by
  have hpi := Real.pi_pos
  refine ⟨⟨by linarith, by linarith⟩, ?_⟩
  intro h
  have hangle := congrArg WindData.angle h
  have hvec : subtractVectors (polarToCartesian ⟨Real.pi / 2, 0⟩)
      (polarToCartesian ⟨0, 0⟩) = ⟨0, 0⟩ := by
    unfold subtractVectors polarToCartesian
    ext <;> simp
  have hz : (calculateApparentWind ⟨Real.pi / 2, 0⟩ ⟨0, 0⟩).angle = 0 := by
    show normalizeAngle (cartesianToPolar (subtractVectors
      (polarToCartesian ⟨Real.pi / 2, 0⟩) (polarToCartesian ⟨0, 0⟩))).angle = 0
    rw [hvec]
    show normalizeAngle (Complex.arg ⟨(0 : ℝ), (0 : ℝ)⟩) = 0
    have h00 : (⟨(0 : ℝ), (0 : ℝ)⟩ : ℂ) = 0 := by
      apply Complex.ext <;> simp
    rw [h00, Complex.arg_zero]
    exact normalizeAngle_eq_self le_rfl two_pi_pos
  rw [hz] at hangle
  have : Real.pi / 2 = 0 := hangle.symm
  linarith

lemma normalizeAngle_zero : normalizeAngle 0 = 0 :=
  normalizeAngle_eq_self le_rfl two_pi_pos

lemma angleCollision_true_iff (a1 a2 m : ℝ) :
    angleCollision a1 a2 m = true ↔
    min |normalizeAngle a1 - normalizeAngle a2|
      (2 * Real.pi - |normalizeAngle a1 - normalizeAngle a2|) < m := by
  unfold angleCollision
  rw [decide_eq_true_iff]

/-- Modelled from the claim's wording only (for comparison with the source's
`constrainAngle`): the minimum of the forward and backward angular distances
between two angles. -/
def angularDistance (a b : ℝ) : ℝ :=
  min (normalizeAngle (b - a)) (normalizeAngle (a - b))

/-- Modelled from the claim's wording only (for comparison with the source's
`constrainAngle`): on collision, snap to whichever of
`existing ± minSeparation` (normalized) is nearer to the current candidate in
angular distance. -/
def constrainAngleSpec (proposedAngle : ℝ) (existingAngles : List ℝ)
    (minSeparation : ℝ) : ℝ :=
  existingAngles.foldl
    (fun constrained existingAngle =>
      if angleCollision constrained existingAngle minSeparation then
        let normalizedExisting := normalizeAngle existingAngle
        let option1 := normalizeAngle (normalizedExisting + minSeparation)
        let option2 := normalizeAngle (normalizedExisting - minSeparation)
        if angularDistance constrained option1 < angularDistance constrained option2
          then option1 else option2
      else constrained)
    (normalizeAngle proposedAngle)

/-- C7 (amended): `constrainAngle` iterates over the existing angles and, for
each one in collision with the (possibly already adjusted) proposed angle,
snaps the proposed angle to whichever of `existing ± minSep` (each normalized
into `[0, 2π)`) has the smaller absolute difference of normalized values (not
the smaller angular distance); in particular, proposing 5° against
{0°, 90°} with 10° separation yields exactly 10°. -/
theorem c7_constrainAngle_abs_diff :
    (∀ (proposedAngle minSeparation : ℝ) (existingAngles : List ℝ),
      constrainAngle proposedAngle existingAngles minSeparation =
        existingAngles.foldl
          (fun constrained existingAngle =>
            if angleCollision constrained existingAngle minSeparation then
              if |normalizeAngle constrained -
                    normalizeAngle (normalizeAngle existingAngle + minSeparation)| <
                  |normalizeAngle constrained -
                    normalizeAngle (normalizeAngle existingAngle - minSeparation)|
                then normalizeAngle (normalizeAngle existingAngle + minSeparation)
                else normalizeAngle (normalizeAngle existingAngle - minSeparation)
            else constrained)
          (normalizeAngle proposedAngle)) ∧
    constrainAngle (degToRad 5) [degToRad 0, degToRad 90] (degToRad 10) =
      degToRad 10 := by
  have hpi := Real.pi_pos
  constructor
  · intro proposedAngle minSeparation existingAngles
    rfl
  · have hd0 : degToRad 0 = 0 := by
      unfold degToRad
      ring
    have hn5 : normalizeAngle (degToRad 5) = degToRad 5 := by
      unfold degToRad
      exact normalizeAngle_eq_self (by positivity) (by nlinarith)
    have hn10 : normalizeAngle (degToRad 10) = degToRad 10 := by
      unfold degToRad
      exact normalizeAngle_eq_self (by positivity) (by nlinarith)
    have hn90 : normalizeAngle (degToRad 90) = degToRad 90 := by
      unfold degToRad
      exact normalizeAngle_eq_self (by positivity) (by nlinarith)
    have hnegd10 : normalizeAngle (-degToRad 10) = 2 * Real.pi - degToRad 10 := by
      have h1 : -(2 * Real.pi) ≤ -degToRad 10 := by
        unfold degToRad
        nlinarith
      have h2 : -degToRad 10 < 0 := by
        unfold degToRad
        nlinarith
      rw [normalizeAngle_neg_add h1 h2]
      ring
    have hcol1 : angleCollision (degToRad 5) 0 (degToRad 10) = true := by
      rw [angleCollision_true_iff, hn5, normalizeAngle_zero, sub_zero,
        abs_of_nonneg (by unfold degToRad; positivity)]
      rw [min_eq_left (by unfold degToRad; nlinarith)]
      unfold degToRad
      nlinarith
    have hcol2 : ¬ (angleCollision (degToRad 10) (degToRad 90) (degToRad 10) = true) := by
      rw [angleCollision_true_iff, hn10, hn90]
      have habs : |degToRad 10 - degToRad 90| = degToRad 90 - degToRad 10 := by
        rw [abs_of_neg (by unfold degToRad; nlinarith)]
        ring
      rw [habs, min_eq_left (by unfold degToRad; nlinarith)]
      unfold degToRad
      intro hlt
      nlinarith
    have hcmp1 : |degToRad 5 - degToRad 10| <
        |degToRad 5 - (2 * Real.pi - degToRad 10)| := by
      have ha1 : |degToRad 5 - degToRad 10| = degToRad 10 - degToRad 5 := by
        rw [abs_of_neg (by unfold degToRad; nlinarith)]
        ring
      have ha2 : |degToRad 5 - (2 * Real.pi - degToRad 10)| =
          2 * Real.pi - degToRad 10 - degToRad 5 := by
        rw [abs_of_neg (by unfold degToRad; nlinarith)]
        ring
      rw [ha1, ha2]
      unfold degToRad
      nlinarith
    unfold constrainAngle
    simp only [List.foldl, hn5, hd0, normalizeAngle_zero, zero_add, zero_sub,
      hn10, hnegd10]
    rw [if_pos hcol1, if_pos hcmp1, if_neg hcol2]

/-- C7 counterexample: proposing angle 0 against the existing angle 0.1 rad
with separation 0.2 rad, the code snaps to `normalizeAngle (0.1 + 0.2) = 0.3`
(the option with the smaller naive absolute difference), while the candidate
nearer in angular distance is `normalizeAngle (0.1 - 0.2) = 2π - 0.1`; the
claim-worded function and the code disagree at this input. -/
theorem c7_counterexample :
    constrainAngle 0 [1 / 10] (1 / 5) = 3 / 10 ∧
    constrainAngleSpec 0 [1 / 10] (1 / 5) = 2 * Real.pi - 1 / 10 ∧
    constrainAngle 0 [1 / 10] (1 / 5) ≠ constrainAngleSpec 0 [1 / 10] (1 / 5) := by
  have hpi := Real.pi_pos
  have hpi3 := Real.pi_gt_three
  have hn01 : normalizeAngle (1 / 10 : ℝ) = 1 / 10 :=
    normalizeAngle_eq_self (by norm_num) (by nlinarith)
  have hn03 : normalizeAngle (1 / 10 + 1 / 5 : ℝ) = 3 / 10 := by
    rw [show (1 / 10 + 1 / 5 : ℝ) = 3 / 10 by norm_num]
    exact normalizeAngle_eq_self (by norm_num) (by nlinarith)
  have hnneg : normalizeAngle (1 / 10 - 1 / 5 : ℝ) = 2 * Real.pi - 1 / 10 := by
    rw [show (1 / 10 - 1 / 5 : ℝ) = -(1 / 10) by norm_num]
    rw [normalizeAngle_neg_add (by nlinarith) (by norm_num)]
    ring
  have hcol : angleCollision 0 (1 / 10) (1 / 5) = true := by
    rw [angleCollision_true_iff, normalizeAngle_zero, hn01]
    rw [show |(0 : ℝ) - 1 / 10| = 1 / 10 by
      rw [abs_of_neg (by norm_num : (0 : ℝ) - 1 / 10 < 0)]; norm_num]
    rw [min_eq_left (by nlinarith)]
    norm_num
  have hcode : constrainAngle 0 [1 / 10] (1 / 5) = 3 / 10 := by
    unfold constrainAngle
    simp only [List.foldl, normalizeAngle_zero, hn01, hn03, hnneg]
    have hcmp : |(0 : ℝ) - 3 / 10| < |(0 : ℝ) - (2 * Real.pi - 1 / 10)| := by
      rw [abs_of_neg (by norm_num : (0 : ℝ) - 3 / 10 < 0),
        abs_of_neg (by nlinarith : (0 : ℝ) - (2 * Real.pi - 1 / 10) < 0)]
      nlinarith
    rw [if_pos hcol, if_pos hcmp]
  have hspec : constrainAngleSpec 0 [1 / 10] (1 / 5) = 2 * Real.pi - 1 / 10 := by
    unfold constrainAngleSpec
    simp only [List.foldl, normalizeAngle_zero, hn01, hn03, hnneg]
    rw [if_pos hcol]
    have had1 : angularDistance 0 (3 / 10) = 3 / 10 := by
      unfold angularDistance
      rw [sub_zero, zero_sub]
      rw [show normalizeAngle (3 / 10 : ℝ) = 3 / 10 from
        normalizeAngle_eq_self (by norm_num) (by nlinarith)]
      rw [show normalizeAngle (-(3 / 10) : ℝ) = 2 * Real.pi - 3 / 10 by
        rw [normalizeAngle_neg_add (by nlinarith) (by norm_num)]; ring]
      exact min_eq_left (by nlinarith)
    have had2 : angularDistance 0 (2 * Real.pi - 1 / 10) = 1 / 10 := by
      unfold angularDistance
      rw [sub_zero, zero_sub]
      rw [show normalizeAngle (2 * Real.pi - 1 / 10) = 2 * Real.pi - 1 / 10 from
        normalizeAngle_eq_self (by nlinarith) (by norm_num)]
      rw [show normalizeAngle (-(2 * Real.pi - 1 / 10)) = 1 / 10 by
        rw [show (-(2 * Real.pi - 1 / 10) : ℝ) = 1 / 10 - 2 * Real.pi by ring]
        rw [normalizeAngle_neg_add (by nlinarith) (by nlinarith)]
        ring]
      exact min_eq_right (by nlinarith)
    rw [had1, had2]
    rw [if_neg (by norm_num : ¬ ((3 : ℝ) / 10 < 1 / 10))]
  refine ⟨hcode, hspec, ?_⟩
  rw [hcode, hspec]
  intro heq
  nlinarith

end
